import Mathlib

/-!
Verification of the PatchMatch inpainting engine in
src/plugins/paintops/defaultpaintops/brush/tests/kis_clone_test.cpp.

The development shallowly embeds the three layers of the engine:

* `MaskedImage` — the device-level container (image/mask byte grids plus
  the boolean mask cache), with clearMask, downsample2x, the upscale size
  contract, countMasked and the pyramid loop of Inpaint::patch.
* `NNConfig`/`NNEntry` — the NearestNeighborField: patch distance,
  randomize/initialize, the minimize scan orders and minimizeLink with
  its propagation and random-search phases.  Randomness (the source's
  static std::mt19937 seeded from std::random_device) is modelled as an
  explicit entropy stream threaded through the computation;
  random_int(range) = stream value mod range, which is exactly the set of
  values uniform_int_distribution(0, range-1) can produce.
* the EM maximization step's histogram accumulation and CDF walk, with
  the source's int-typed histogram (boost::multi_array<int, 2>) and the
  float weights modelled as rationals.

Machine integers are modelled as Nat/Int: every quantity that the source
keeps non-negative (pixel bytes, distances, wsum) is a Nat, coordinates
that the source lets go negative are Int.  No value in the modelled code
paths approaches 2^31, so wrap-around is not modelled.
-/

namespace KisCloneTest

/-! ### MaskedImage: device-level model

A paint device is modelled as a total byte grid together with the cached
exact bounds.  The model assumes the painted region is the rectangle
[0,W) x [0,H) at the origin (the situation the test exercises); reads
outside the painted region yield the default pixel, which is the zero
byte. -/

/-- Model of the image/mask container MaskedImage: cached size (W, H),
channel count, the image device bytes, the mask device bytes, and the
boolean mask cache maintained by cacheMask. -/
structure MaskedImage where
  W : Nat
  H : Nat
  C : Nat
  imgDev : Nat → Nat → Nat → Nat
  maskDev : Nat → Nat → Nat
  maskCache : Nat → Nat → Bool

/-- Reading the image device: inside the painted bounds the stored byte,
outside the default (zero) pixel. -/
def devReadImg (m : MaskedImage) (x y c : Nat) : Nat :=
  if x < m.W ∧ y < m.H then m.imgDev x y c else 0

/-- Reading the mask device, with the same default-pixel convention. -/
def devReadMask (m : MaskedImage) (x y : Nat) : Nat :=
  if x < m.W ∧ y < m.H then m.maskDev x y else 0

/-- MaskedImage construction (clone + cacheEverything): the mask cache is
rebuilt from the mask device bytes, a pixel being masked iff its mask
byte is < 128 (MaskedImage::cacheMask). -/
def mkMaskedImage (w h c : Nat) (img : Nat → Nat → Nat → Nat)
    (mask : Nat → Nat → Nat) : MaskedImage :=
  { W := w, H := h, C := c, imgDev := img, maskDev := mask,
    maskCache := fun x y => decide (mask x y < 128) }

/-- MaskedImage::isMasked reads the cached mask, not the device. -/
def isMasked (m : MaskedImage) (x y : Nat) : Bool :=
  m.maskCache x y

/-- MaskedImage::countMasked counts the true entries of the mask cache. -/
def countMasked (m : MaskedImage) : Nat :=
  ((List.range m.W).flatMap fun x => (List.range m.H).map fun y => (x, y)).countP
    (fun p => m.maskCache p.1 p.2)

/-- MaskedImage::clearMask fills the mask DEVICE with the byte 0 over its
exact bounds.  It does not touch the image device and it does not rerun
cacheMask, so the mask cache keeps its previous contents. -/
def clearMask (m : MaskedImage) : MaskedImage :=
  { m with maskDev := fun x y => if x < m.W ∧ y < m.H then 0 else m.maskDev x y }

/-- The isOdd macro of the source, as the value of x & 1. -/
def isOdd (n : Nat) : Nat := n % 2

/-- Weighted 4-pixel average with the weight vector (64, 64, 64, 63).
Modelled from the spec: the actual mixing is done by the external
KoMixColorsOp ("average the four source pixels ... using integer weights
(64,64,64,63) summing to 255"); only the all-zero case matters to the
theorems below, where any rounding convention yields 0. -/
def mix4 (a b c d : Nat) : Nat :=
  (64 * a + 64 * b + 64 * c + 63 * d) / 255

/-- MaskedImage::downsample2x.  The bounds are aligned by alignRectBy2
(with the origin at (0,0) the width/height are rounded up to even; the
"w += isOdd(x)" line of the macro reads the already-cleared x and adds
nothing), the destination is half the aligned size, and each destination
pixel averages the 2x2 source block with weights (64,64,64,63); the mask
device is averaged the same way, and the caches are rebuilt. -/
def downsample2x (m : MaskedImage) : MaskedImage :=
  let srcW := m.W + isOdd m.W
  let srcH := m.H + isOdd m.H
  if srcW < 1 ∨ srcH < 1 then m
  else
    let dstW := srcW / 2
    let dstH := srcH / 2
    let img2 : Nat → Nat → Nat → Nat := fun dx dy c =>
      mix4 (devReadImg m (2 * dx) (2 * dy) c) (devReadImg m (2 * dx + 1) (2 * dy) c)
        (devReadImg m (2 * dx) (2 * dy + 1) c) (devReadImg m (2 * dx + 1) (2 * dy + 1) c)
    let mask2 : Nat → Nat → Nat := fun dx dy =>
      mix4 (devReadMask m (2 * dx) (2 * dy)) (devReadMask m (2 * dx + 1) (2 * dy))
        (devReadMask m (2 * dx) (2 * dy + 1)) (devReadMask m (2 * dx + 1) (2 * dy + 1))
    { W := dstW, H := dstH, C := m.C, imgDev := img2, maskDev := mask2,
      maskCache := fun x y => decide (mask2 x y < 128) }

/-- Dimensions produced by MaskedImage::upscale(xsize, ysize): the call
passes xsize/sz.width() and ysize/sz.height() — integer divisions of int
arguments — as the (double) scale factors of the external bilinear
KisTransformWorker, so a w-wide device becomes w * (xsize / w) wide. -/
def upscaleDims (w h xs ys : Nat) : Nat × Nat :=
  (w * (xs / w), h * (ys / h))

/-- The size of the MaskedImage returned by upscale, after re-caching. -/
def upscaleSizeOf (m : MaskedImage) (xs ys : Nat) : Nat × Nat :=
  upscaleDims m.W m.H xs ys

/-- The pyramid loop of Inpaint::patch: while both dimensions exceed the
radius, stop if the current source has no masked pixel, otherwise
downsample it and append the clone.  The loop is given the fuel W + H,
which theorem C10 below shows is enough for the guard to fail. -/
def pyrAux : Nat → MaskedImage → List MaskedImage → Nat → MaskedImage × List MaskedImage
  | 0, src, acc, _ => (src, acc)
  | fuel + 1, src, acc, r =>
    if r < src.W ∧ r < src.H then
      if countMasked src = 0 then (src, acc)
      else
        let s2 := downsample2x src
        pyrAux fuel s2 (acc ++ [s2]) r
    else (src, acc)

/-- Pyramid construction in Inpaint::patch: the pyramid starts with the
initial image, the working source being a clone of it. -/
def buildPyramid (init : MaskedImage) (r : Nat) : MaskedImage × List MaskedImage :=
  pyrAux (init.W + init.H) init [init] r

/-- The dimensions of the surface Inpaint::patch returns.  After the
pyramid is built, the target starts at the size of the coarsest level;
for each level from maxlevel-1 down to 1, ExpectationMaximization ends
its last EM iteration by upscaling the target to the size of
pyramid[level-1] (the other EM iterations clone the target and EM_Step
writes pixels in place at coordinates inside the target bounds, so only
the upscale changes the dimensions). -/
def patchOutSize (init : MaskedImage) (r : Nat) : Nat × Nat :=
  let p := buildPyramid init r
  let src := p.1
  let pyr := p.2
  (List.range (pyr.length - 1)).reverse.foldl
    (fun ts k =>
      let lvl := pyr.getD k init
      upscaleDims ts.1 ts.2 lvl.W lvl.H)
    (src.W, src.H)

/-! Concrete MaskedImages used by the counterexamples and witnesses. -/

/-- A 3x3 fully masked image: every image byte 255 (so the exact bounds
are the full rectangle), every mask byte 0, hence every pixel is a hole. -/
def mi3 : MaskedImage :=
  mkMaskedImage 3 3 1 (fun _ _ _ => 255) (fun _ _ => 0)

/-- A 2x2 unmasked image (mask bytes 255). -/
def mi2 : MaskedImage :=
  mkMaskedImage 2 2 1 (fun _ _ _ => 255) (fun _ _ => 255)

/-- A 1x1 image whose single mask byte is 0, so its cached mask is true. -/
def mi1hole : MaskedImage :=
  mkMaskedImage 1 1 1 (fun _ _ _ => 255) (fun _ _ => 0)

/-! ### NearestNeighborField

The NNF works on a fixed pair of images (input = the target being
rebuilt, output = the source of patches).  For the NNF claims the pixel
grids are modelled at the level the field code sees them: cached u8
samples (Fin 256) and the cached mask booleans, with the sizes of both
images.  The entropy drawn from the static std::mt19937 is an explicit
stream of naturals; random_int(range), i.e. uniform_int_distribution
(0, range-1) applied to the generator, is the next stream value mod
range — exactly the values the distribution can produce. -/

/-- One cell of the NNF: a source coordinate and the patch distance
(struct NNPixel).  The source stores the coordinates as int; the
distance is never negative, so it is a Nat here. -/
structure NNEntry where
  x : Int
  y : Int
  d : Nat

/-- The data NearestNeighborField reads: the two image sizes, the cached
u8 pixel grids and mask caches of input and output, the channel count of
the input device (imageDev->channelCount()) and the patch radius. -/
structure NNConfig where
  inW : Nat
  inH : Nat
  outW : Nat
  outH : Nat
  inPix : Int → Int → Nat → Fin 256
  outPix : Int → Int → Nat → Fin 256
  inMask : Int → Int → Bool
  outMask : Int → Int → Bool
  C : Nat
  R : Nat

/-- The entropy stream: an infinite sequence of naturals and a cursor. -/
structure RngT where
  seq : Nat → Nat
  idx : Nat

/-- NearestNeighborField::random_int(range): one value in [0, range-1]
drawn from the generator, modelled as the next stream value mod range. -/
def rngDraw (range : Nat) (g : RngT) : Nat × RngT :=
  (g.seq g.idx % range, ⟨g.seq, g.idx + 1⟩)

/-- The field grid, as a total function with per-cell update. -/
def Field : Type := Int → Int → NNEntry

/-- Writing one cell of the field. -/
def updF (f : Field) (x y : Int) (e : NNEntry) : Field :=
  fun a b => if a = x ∧ b = y then e else f a b

/-- MaskedImage::distance(x, y, other, xo, yo): the per-pixel SSD, the
sum over the input device's channels of the squared byte difference. -/
def distanceSq (cfg : NNConfig) (x y xo yo : Int) : Nat :=
  Finset.sum (Finset.range cfg.C) fun c =>
    (((cfg.inPix x y c : Nat) : Int) - ((cfg.outPix xo yo c : Nat) : Int)).natAbs ^ 2

/-- The fixed per-offset penalty 10*255*255 of the patch distance. -/
def ssdmax : Nat := 10 * 255 * 255

/-- MAX_DIST of the source. -/
def maxDist : Nat := 65535

/-- The offset range [-R, R] as a list, in ascending order. -/
def offRange (r : Nat) : List Int :=
  (List.range (2 * r + 1)).map fun i => (i : Int) - (r : Int)

/-- The (dy, dx) iteration order of NearestNeighborField::distance:
dy is the outer loop, dx the inner one. -/
def offPairs (r : Nat) : List (Int × Int) :=
  (offRange r).flatMap fun dy => (offRange r).map fun dx => (dx, dy)

/-- One offset of NearestNeighborField::distance: the target sample
(x+dx, y+dy) is checked against the input bounds and mask, then the
source sample (xp+dx, yp+dy) against the output bounds and mask; any
failure contributes ssdmax, otherwise the SSD of the two samples. -/
def offStep (cfg : NNConfig) (x y xp yp : Int) (p : Int × Int) : Nat :=
  let xks := x + p.1
  let yks := y + p.2
  if xks < 0 ∨ (cfg.inW : Int) ≤ xks then ssdmax
  else if yks < 0 ∨ (cfg.inH : Int) ≤ yks then ssdmax
  else if cfg.inMask xks yks then ssdmax
  else
    let xkt := xp + p.1
    let ykt := yp + p.2
    if xkt < 0 ∨ (cfg.outW : Int) ≤ xkt then ssdmax
    else if ykt < 0 ∨ (cfg.outH : Int) ≤ ykt then ssdmax
    else if cfg.outMask xkt ykt then ssdmax
    else distanceSq cfg xks yks xkt ykt

/-- NearestNeighborField::distance(x, y, xp, yp): accumulate the offset
contributions and wsum (ssdmax per offset) over the (2R+1)^2 window and
return MAX_DIST * distance / wsum, an integer division. -/
def nnfDistance (cfg : NNConfig) (x y xp yp : Int) : Nat :=
  let acc := (offPairs cfg.R).foldl
    (fun (a : Nat × Nat) p => (a.1 + offStep cfg x y xp yp p, a.2 + ssdmax))
    (0, 0)
  maxDist * acc.1 / acc.2

/-- The patch distance as section 4.D of the spec words it: one sum over
the (2R+1)^2 offsets, each contributing the fixed cap ssdmax when either
sample is out of bounds or masked and the per-pixel SSD otherwise, with
the closed-form denominator wsum = (2R+1)^2 * ssdmax. -/
def patchDistSpec (cfg : NNConfig) (x y xp yp : Int) : Nat :=
  let wsum := (2 * cfg.R + 1) ^ 2 * ssdmax
  let s := ((offPairs cfg.R).map fun p =>
    if (x + p.1 < 0 ∨ (cfg.inW : Int) ≤ x + p.1) ∨
       (y + p.2 < 0 ∨ (cfg.inH : Int) ≤ y + p.2) ∨
       cfg.inMask (x + p.1) (y + p.2) = true ∨
       (xp + p.1 < 0 ∨ (cfg.outW : Int) ≤ xp + p.1) ∨
       (yp + p.2 < 0 ∨ (cfg.outH : Int) ≤ yp + p.2) ∨
       cfg.outMask (xp + p.1) (yp + p.2) = true
    then ssdmax
    else distanceSq cfg (x + p.1) (y + p.2) (xp + p.1) (yp + p.2)).sum
  maxDist * s / wsum

/-- The cell visit order of randomize and of initialize: y outer
ascending, x inner ascending, over the input (target) dimensions. -/
def scanCells (w h : Nat) : List (Nat × Nat) :=
  (List.range h).flatMap fun y => (List.range w).map fun x => (x, y)

/-- One cell of the first randomize loop: draw the source coordinates
from the INPUT dimensions (random_int of imSize.width/height) and set
the distance to MAX_DIST. -/
def assignCell (cfg : NNConfig) (st : Field × RngT) (c : Nat × Nat) : Field × RngT :=
  let d1 := rngDraw cfg.inW st.2
  let d2 := rngDraw cfg.inH d1.2
  (updF st.1 (c.1 : Int) (c.2 : Int) ⟨(d1.1 : Int), (d2.1 : Int), maxDist⟩, d2.2)

/-- The first half of NearestNeighborField::randomize: every cell gets
random source coordinates and the distance MAX_DIST. -/
def randomizeAssign (cfg : NNConfig) (st : Field × RngT) : Field × RngT :=
  (scanCells cfg.inW cfg.inH).foldl (assignCell cfg) st

/-- The retry loop of NearestNeighborField::initialize(void): while the
cell's distance is MAX_DIST and fewer than 20 retries have run, redraw
the source coordinates from the input dimensions and recompute. -/
def initRetry (cfg : NNConfig) (x y : Int) (st : NNEntry × RngT) : NNEntry × RngT :=
  (List.range 20).foldl
    (fun (st : NNEntry × RngT) _ =>
      if st.1.d = maxDist then
        let d1 := rngDraw cfg.inW st.2
        let d2 := rngDraw cfg.inH d1.2
        (⟨(d1.1 : Int), (d2.1 : Int), nnfDistance cfg x y (d1.1 : Int) (d2.1 : Int)⟩, d2.2)
      else st)
    st

/-- One cell of NearestNeighborField::initialize(void): recompute the
distance of the current link, then run the retry loop, then store. -/
def initCell (cfg : NNConfig) (st : Field × RngT) (c : Nat × Nat) : Field × RngT :=
  let x : Int := (c.1 : Int)
  let y : Int := (c.2 : Int)
  let e := st.1 x y
  let d0 := nnfDistance cfg x y e.x e.y
  let r := initRetry cfg x y (⟨e.x, e.y, d0⟩, st.2)
  (updF st.1 x y r.1, r.2)

/-- NearestNeighborField::initialize(void), over every cell in scan
order. -/
def initDistances (cfg : NNConfig) (st : Field × RngT) : Field × RngT :=
  (scanCells cfg.inW cfg.inH).foldl (initCell cfg) st

/-- NearestNeighborField::randomize: the random assignment followed by
initialize(void). -/
def nnfRandomize (cfg : NNConfig) (st : Field × RngT) : Field × RngT :=
  initDistances cfg (randomizeAssign cfg st)

/-- Propagation Left/Right of minimizeLink: when 0 < x - dir < inW, the
candidate takes the horizontally adjacent cell's x shifted by dir and
that cell's y, and is adopted iff strictly closer. -/
def propHoriz (cfg : NNConfig) (f : Field) (x y dir : Int) : Field :=
  if 0 < x - dir ∧ x - dir < (cfg.inW : Int) then
    let xp := (f (x - dir) y).x + dir
    let yp := (f (x - dir) y).y
    let dp := nnfDistance cfg x y xp yp
    if dp < (f x y).d then updF f x y ⟨xp, yp, dp⟩ else f
  else f

/-- Propagation Up/Down of minimizeLink: when 0 < y - dir < inH, the
candidate takes the CURRENT cell's x and the CURRENT cell's y shifted by
dir (the adjacent cell only appears in the guard), adopted iff strictly
closer. -/
def propVert (cfg : NNConfig) (f : Field) (x y dir : Int) : Field :=
  if 0 < y - dir ∧ y - dir < (cfg.inH : Int) then
    let xp := (f x y).x
    let yp := (f x y).y + dir
    let dp := nnfDistance cfg x y xp yp
    if dp < (f x y).d then updF f x y ⟨xp, yp, dp⟩ else f
  else f

/-- One iteration of the random-search while loop of minimizeLink, with
window w: draw two values in [0, 2*w-1], offset the snapshot (xpi, ypi)
taken before the loop, clamp the candidate into the output rectangle
and adopt it iff strictly closer than the cell's current distance. -/
def randStep (cfg : NNConfig) (x y xpi ypi : Int) (w : Nat) (st : Field × RngT) :
    Field × RngT :=
  let d1 := rngDraw (2 * w) st.2
  let d2 := rngDraw (2 * w) d1.2
  let xp0 := xpi + (d1.1 : Int) - (w : Int)
  let yp0 := ypi + (d2.1 : Int) - (w : Int)
  let xp := max 0 (min ((cfg.outW : Int) - 1) xp0)
  let yp := max 0 (min ((cfg.outH : Int) - 1) yp0)
  let dp := nnfDistance cfg x y xp yp
  (if dp < (st.1 x y).d then updF st.1 x y ⟨xp, yp, dp⟩ else st.1, d2.2)

/-- The random search of minimizeLink: the window wi starts at the
output width and halves until it reaches 0.  The fuel only bounds the
recursion; wi halves to 0 after at most log2(wi)+1 <= fuel iterations
whenever fuel >= wi, so with the call's fuel = wi the if wi = 0 exit
always fires first. -/
def randSearch (cfg : NNConfig) (x y xpi ypi : Int) :
    Nat → Nat → Field × RngT → Field × RngT
  | 0, _, st => st
  | _ + 1, 0, st => st
  | fuel + 1, wi + 1, st =>
    randSearch cfg x y xpi ypi fuel ((wi + 1) / 2) (randStep cfg x y xpi ypi (wi + 1) st)

/-- NearestNeighborField::minimizeLink(x, y, dir): horizontal
propagation, vertical propagation, then the random search, whose
snapshot (xpi, ypi) is the cell value after both propagations. -/
def minimizeLink (cfg : NNConfig) (st : Field × RngT) (x y dir : Int) : Field × RngT :=
  let f1 := propHoriz cfg st.1 x y dir
  let f2 := propVert cfg f1 x y dir
  let xpi := (f2 x y).x
  let ypi := (f2 x y).y
  randSearch cfg x y xpi ypi cfg.outW cfg.outW (f2, st.2)

/-- The cells visited by the forward (scanline) half of one minimize
pass: y runs over [min_y, max_y) with max_y = H - 1 — the comparison in
the source is y < max_y — and x over [min_x, max_x] inclusive. -/
def forwardCells (w h : Nat) : List (Nat × Nat) :=
  (List.range (h - 1)).flatMap fun y => (List.range w).map fun x => (x, y)

/-- The cells visited by the reverse half of one minimize pass: y from
max_y down to min_y inclusive, x from max_x down to min_x inclusive. -/
def reverseCells (w h : Nat) : List (Nat × Nat) :=
  ((List.range h).reverse).flatMap fun y =>
    ((List.range w).reverse).map fun x => (x, y)

/-- One pass of NearestNeighborField::minimize: the forward scan links a
cell only when its distance is > 0, the reverse scan only when its
distance is nonzero. -/
def minimizePass (cfg : NNConfig) (st : Field × RngT) : Field × RngT :=
  let st1 := (forwardCells cfg.inW cfg.inH).foldl
    (fun (st : Field × RngT) c =>
      if 0 < (st.1 (c.1 : Int) (c.2 : Int)).d then
        minimizeLink cfg st (c.1 : Int) (c.2 : Int) 1
      else st)
    st
  (reverseCells cfg.inW cfg.inH).foldl
    (fun (st : Field × RngT) c =>
      if (st.1 (c.1 : Int) (c.2 : Int)).d ≠ 0 then
        minimizeLink cfg st (c.1 : Int) (c.2 : Int) (-1)
      else st)
    st1

/-- NearestNeighborField::minimize(pass): the requested number of
forward+reverse passes. -/
def nnfMinimize (cfg : NNConfig) (st : Field × RngT) (pass : Nat) : Field × RngT :=
  (List.range pass).foldl (fun st _ => minimizePass cfg st) st

/-- Vertical propagation as claim C4-C7's source sentence describes it:
the candidate's y component comes from the vertically ADJACENT cell,
(nnf[x, y-dir].sy + dir), the x component from the current cell.  This
definition follows the spec's words; the source takes both components
from the current cell (propVert above). -/
def propVertClaim (cfg : NNConfig) (f : Field) (x y dir : Int) : Field :=
  if 0 < y - dir ∧ y - dir < (cfg.inH : Int) then
    let xp := (f x y).x
    let yp := (f x (y - dir)).y + dir
    let dp := nnfDistance cfg x y xp yp
    if dp < (f x y).d then updF f x y ⟨xp, yp, dp⟩ else f
  else f

/-- minimizeLink as the claim describes it: identical to the source
except that the vertical propagation uses the adjacent cell's y. -/
def minimizeLinkClaim (cfg : NNConfig) (st : Field × RngT) (x y dir : Int) : Field × RngT :=
  let f1 := propHoriz cfg st.1 x y dir
  let f2 := propVertClaim cfg f1 x y dir
  let xpi := (f2 x y).x
  let ypi := (f2 x y).y
  randSearch cfg x y xpi ypi cfg.outW cfg.outW (f2, st.2)

/-! Concrete NNF instances for the counterexamples and witnesses. -/

/-- The all-zero entropy stream. -/
def rng0 : RngT := ⟨fun _ => 0, 0⟩

/-- The all-one entropy stream. -/
def rng1 : RngT := ⟨fun _ => 1, 0⟩

/-- An initial field; randomize overwrites every cell it reads. -/
def field0 : Field := fun _ _ => ⟨0, 0, 0⟩

/-- A 2x2 target and 2x2 source with 10 channels and radius 1.  Every
channel of a pixel holds the same byte: the target's column 0 is 0 and
column 1 is 255; the source's column 0 is 255 and column 1 is 128.  No
pixel is masked. -/
def cfg4 : NNConfig :=
  { inW := 2, inH := 2, outW := 2, outH := 2,
    inPix := fun x _ _ => if x = 0 then (0 : Fin 256) else 255,
    outPix := fun x _ _ => if x = 0 then (255 : Fin 256) else 128,
    inMask := fun _ _ => false, outMask := fun _ _ => false,
    C := 10, R := 1 }

/-- The field cfg4 produces from the all-zero entropy stream after
randomize followed by one minimize pass. -/
def c4field : Field :=
  (nnfMinimize cfg4 (nnfRandomize cfg4 (field0, rng0)) 1).1

/-- A 1x3 target and 1x3 source, one channel, radius 1, all pixels equal
and unmasked — only the geometry matters. -/
def cfg7 : NNConfig :=
  { inW := 1, inH := 3, outW := 1, outH := 3,
    inPix := fun _ _ _ => (7 : Fin 256), outPix := fun _ _ _ => (7 : Fin 256),
    inMask := fun _ _ => false, outMask := fun _ _ => false,
    C := 1, R := 1 }

/-- A field state for cfg7: the cell (0,1) links to source row 2, the
cell (0,2) links to source row 0 at distance MAX_DIST. -/
def field7 : Field := fun _ b =>
  if b = 1 then ⟨0, 2, 50971⟩ else if b = 2 then ⟨0, 0, 65535⟩ else ⟨0, 0, 50971⟩

/-- A 1x1 pair of images with 11 channels: the target pixel is 255 on
every channel, the source pixel 0, radius 1, nothing masked. -/
def cfg11 : NNConfig :=
  { inW := 1, inH := 1, outW := 1, outH := 1,
    inPix := fun _ _ _ => (255 : Fin 256), outPix := fun _ _ _ => (0 : Fin 256),
    inMask := fun _ _ => false, outMask := fun _ _ => false,
    C := 11, R := 1 }

/-- A 1x1 pair with a single channel, for the witnesses. -/
def cfg1 : NNConfig :=
  { inW := 1, inH := 1, outW := 1, outH := 1,
    inPix := fun _ _ _ => (200 : Fin 256), outPix := fun _ _ _ => (50 : Fin 256),
    inMask := fun _ _ => false, outMask := fun _ _ => false,
    C := 1, R := 1 }

/-! ### The EM maximization step: histogram and CDF walk

EM_Step accumulates, for each target pixel and each colour channel, the
weights of the accepted patch offsets into a 256-bin histogram and their
sum into wsum, then walks the histogram CDF between the 0.4*wsum and
0.6*wsum quantiles and writes contrib / wcontrib.  The histogram is
declared as boost::multi_array<int, 2> (HistArray_type) while the
weights w = similarity[d] are floats in (0,1); the float arithmetic is
modelled with rationals.  One colour channel is modelled; the channels
are independent. -/

/-- Histogram bins of one colour channel, as the int array of the
source. -/
def HistBins : Type := Fin 256 → Int

/-- The all-zero histogram: EM_Step zero-fills the histogram before each
target pixel. -/
def hist0 : HistBins := fun _ => 0

/-- One accepted offset contribution at colour value b with float weight
w: the C++ statement histogram[chan][b] += w adds the int bin to the
float w and truncates the result back to int; on the non-negative values
that occur this is the floor. -/
def histAdd (h : HistBins) (b : Fin 256) (w : ℚ) : HistBins :=
  fun i => if i = b then Int.floor ((h b : ℚ) + w) else h i

/-- The estimation sweep of EM_Step, restricted to one colour channel:
each accepted offset contributes its colour value and weight to the
histogram, and its weight to wsum (a float accumulator). -/
def emAccum (contribs : List (Fin 256 × ℚ)) : HistBins × ℚ :=
  contribs.foldl (fun (st : HistBins × ℚ) c => (histAdd st.1 c.1 c.2, st.2 + c.2))
    (hist0, 0)

/-- The CDF walk of the maximization step, for one colour channel:
accumulate cdf over the bins in order; skip while cdf < lowth; once the
low threshold is passed accumulate contrib += i * bin and wcontrib +=
bin; stop after the first bin with cdf > highth.  The result carries
(cdf, contrib, wcontrib) as the source's float locals. -/
def cdfWalk (h : HistBins) (lowth highth : ℚ) : ℚ × ℚ × ℚ :=
  let r := (List.range 256).foldl
    (fun (st : ℚ × ℚ × ℚ × Bool) i =>
      if st.2.2.2 then st
      else
        let idx : Fin 256 := Fin.ofNat' 256 i
        let cdf := st.1 + (h idx : ℚ)
        if cdf < lowth then (cdf, st.2.1, st.2.2.1, false)
        else
          let contrib := st.2.1 + (i : ℚ) * (h idx : ℚ)
          let wcontrib := st.2.2.1 + (h idx : ℚ)
          (cdf, contrib, wcontrib, decide (highth < cdf)))
    (0, 0, 0, false)
  (r.1, r.2.1, r.2.2.1)

/-- The maximization step of one colour channel: build the histogram and
wsum from the accepted contributions, then walk the CDF with lowth =
0.4*wsum and highth = 0.6*wsum.  Returns (wsum, contrib, wcontrib); the
source then writes contrib / wcontrib (float division) when wsum >= 1. -/
def emChannel (contribs : List (Fin 256 × ℚ)) : ℚ × ℚ × ℚ :=
  let hw := emAccum contribs
  let r := cdfWalk hw.1 ((2 : ℚ) / 5 * hw.2) ((3 : ℚ) / 5 * hw.2)
  (hw.2, r.2.1, r.2.2)

/-- The failing contributions for claim C1: two accepted offsets of
weight 3/5 at colour value 100 (similarity weights always lie in (0,1)
since similarity[i] = 0.5 - 0.5*tanh(...) and tanh is valued in (-1,1)). -/
def c1contribs : List (Fin 256 × ℚ) :=
  [(⟨100, by decide⟩, (3 : ℚ) / 5), (⟨100, by decide⟩, (3 : ℚ) / 5)]

/-- The per-cell invariant of claim C4: the stored source coordinates
lie in [0, w) x [0, h) and the distance is at most MAX_DIST. -/
def entryInRange (w h : Nat) (e : NNEntry) : Prop :=
  0 ≤ e.x ∧ e.x < (w : Int) ∧ 0 ≤ e.y ∧ e.y < (h : Int) ∧ e.d ≤ maxDist

/-! ### Theorems -/

/-- C2 counterexample: on a 1x1 image whose mask byte is 0 (cached as
masked), clearMask leaves isMasked true at (0,0): the claim that
mask_at is false everywhere after clear_mask fails — clearMask zeroes
the device bytes but never refreshes the cache (and a zero byte is on
the masked side of the < 128 threshold anyway). -/
theorem C2_counterexample : isMasked (clearMask mi1hole) 0 0 = true := by decide

/-- C2 amended: clear_mask sets every in-bounds mask byte to 0 and
touches neither the image grid nor the mask cache, so mask_at keeps the
value it had before the call instead of becoming false everywhere. -/
theorem C2_clear_mask_amended (m : MaskedImage) (x y : Nat)
    (hx : x < m.W) (hy : y < m.H) :
    (clearMask m).maskDev x y = 0 ∧ (clearMask m).imgDev = m.imgDev ∧
      (clearMask m).maskCache = m.maskCache ∧
      isMasked (clearMask m) x y = isMasked m x y := by
  refine ⟨?_, rfl, rfl, rfl⟩
  simp [clearMask, hx, hy]

/-- C2 witness: the amended statement instantiated on the 1x1 image. -/
theorem C2_witness :
    (clearMask mi1hole).maskDev 0 0 = 0 ∧ (clearMask mi1hole).imgDev = mi1hole.imgDev ∧
      (clearMask mi1hole).maskCache = mi1hole.maskCache ∧
      isMasked (clearMask mi1hole) 0 0 = isMasked mi1hole 0 0 :=
  C2_clear_mask_amended mi1hole 0 0 (by decide) (by decide)

/-- C3: on the 3x3 fully masked input with radius 1, patch builds the
pyramid 3x3, 2x2, 1x1 and upscales the target back through it, but the
final upscale to 3x3 computes the integer scale factor 3/2 = 1 and
leaves the target at 2x2, so the returned surface does not have the
input's bounds. -/
theorem C3_patch_bounds_bug :
    patchOutSize mi3 1 = (2, 2) ∧ (mi3.W, mi3.H) = (3, 3) := by decide

/-- C5: upscale(3,3) on a 2x2 image returns a 2x2 image — the scale
factors are the integer divisions 3/2 = 1 — not the requested 3x3. -/
theorem C5_upscale_bug :
    upscaleSizeOf mi2 3 3 = (2, 2) ∧ upscaleSizeOf mi2 3 3 ≠ (3, 3) := by decide

/-- When both dimensions are at least 2, downsample2x takes the early
return for empty rects in neither dimension and halves the outward-
aligned bounds. -/
theorem downsample2x_dims (m : MaskedImage) (hW : 2 ≤ m.W) (hH : 2 ≤ m.H) :
    (downsample2x m).W = (m.W + m.W % 2) / 2 ∧
      (downsample2x m).H = (m.H + m.H % 2) / 2 := by
  simp only [downsample2x, isOdd]
  rw [if_neg (by omega)]
  exact ⟨rfl, rfl⟩

/-- The pyramid loop reaches its exit condition — one of the dimensions
at most the radius, or no masked pixel left — within W + H iterations:
whenever the guard holds both dimensions are at least 2 (radius >= 1)
and the aligned halving strictly shrinks both, so W + H strictly
decreases. -/
theorem pyrAux_exit (r : Nat) (hr : 1 ≤ r) :
    ∀ (fuel : Nat) (src : MaskedImage) (acc : List MaskedImage),
      src.W + src.H ≤ fuel →
      (pyrAux fuel src acc r).1.W ≤ r ∨ (pyrAux fuel src acc r).1.H ≤ r ∨
        countMasked (pyrAux fuel src acc r).1 = 0 := by
  intro fuel
  induction fuel with
  | zero =>
    intro src acc hle
    show src.W ≤ r ∨ src.H ≤ r ∨ countMasked src = 0
    omega
  | succ n ih =>
    intro src acc hle
    simp only [pyrAux]
    by_cases hg : r < src.W ∧ r < src.H
    · rw [if_pos hg]
      by_cases hm : countMasked src = 0
      · rw [if_pos hm]
        exact Or.inr (Or.inr hm)
      · rw [if_neg hm]
        have hW2 : 2 ≤ src.W := by omega
        have hH2 : 2 ≤ src.H := by omega
        have hd := downsample2x_dims src hW2 hH2
        exact ih (downsample2x src) (acc ++ [downsample2x src]) (by omega)
    · rw [if_neg hg]
      show src.W ≤ r ∨ src.H ≤ r ∨ countMasked src = 0
      omega

/-- C10: with radius >= 1 the pyramid construction of Inpaint::patch
terminates: downsample2x strictly decreases both dimensions whenever
both exceed the radius, and within W + H loop iterations either
min(W, H) <= radius or count_masked() == 0 holds, so the loop exits. -/
theorem C10_pyramid_terminates (m : MaskedImage) (r : Nat) (hr : 1 ≤ r) :
    (∀ m2 : MaskedImage, r < m2.W → r < m2.H →
      (downsample2x m2).W < m2.W ∧ (downsample2x m2).H < m2.H) ∧
      ((buildPyramid m r).1.W ≤ r ∨ (buildPyramid m r).1.H ≤ r ∨
        countMasked (buildPyramid m r).1 = 0) := by
  constructor
  · intro m2 hW hH
    have hd := downsample2x_dims m2 (by omega) (by omega)
    omega
  · exact pyrAux_exit r hr (m.W + m.H) m [m] le_rfl

/-- C10 witness: the termination statement instantiated on the 3x3
fully masked image with radius 1. -/
theorem C10_witness :
    (buildPyramid mi3 1).1.W ≤ 1 ∨ (buildPyramid mi3 1).1.H ≤ 1 ∨
      countMasked (buildPyramid mi3 1).1 = 0 :=
  (C10_pyramid_terminates mi3 1 (by decide)).2

/-- Adding a weight in [0, 1) to an int histogram bin that holds 0
truncates back to 0, so an all-zero histogram stays all-zero. -/
theorem histAdd_of_zero (h : HistBins) (hz : ∀ i, h i = 0) (b : Fin 256) (w : ℚ)
    (h0 : 0 ≤ w) (h1 : w < 1) : ∀ i, histAdd h b w i = 0 := by
  intro i
  unfold histAdd
  by_cases hib : i = b
  · rw [if_pos hib, hz b]
    push_cast
    rw [zero_add]
    rw [Int.floor_eq_zero_iff]
    exact ⟨h0, h1⟩
  · rw [if_neg hib]
    exact hz i

/-- When every accepted weight lies in [0, 1), the estimation sweep
leaves every int histogram bin at 0 while wsum accumulates the exact
weight total. -/
theorem emAccum_zero (contribs : List (Fin 256 × ℚ))
    (hw : ∀ c ∈ contribs, 0 ≤ c.2 ∧ c.2 < 1) :
    (∀ i, (emAccum contribs).1 i = 0) ∧
      (emAccum contribs).2 = (contribs.map Prod.snd).sum := by
  unfold emAccum
  suffices hgen : ∀ (l : List (Fin 256 × ℚ)) (h : HistBins) (w0 : ℚ),
      (∀ c ∈ l, 0 ≤ c.2 ∧ c.2 < 1) → (∀ i, h i = 0) →
      (∀ i, (l.foldl (fun (st : HistBins × ℚ) c => (histAdd st.1 c.1 c.2, st.2 + c.2))
        (h, w0)).1 i = 0) ∧
      (l.foldl (fun (st : HistBins × ℚ) c => (histAdd st.1 c.1 c.2, st.2 + c.2))
        (h, w0)).2 = w0 + (l.map Prod.snd).sum by
    have := hgen contribs hist0 0 hw (fun _ => rfl)
    refine ⟨this.1, ?_⟩
    rw [this.2, zero_add]
  intro l
  induction l with
  | nil =>
    intro h w0 _ hz
    exact ⟨hz, by simp⟩
  | cons c rest ih =>
    intro h w0 hl hz
    have hc := hl c (List.mem_cons_self c rest)
    have hz2 := histAdd_of_zero h hz c.1 c.2 hc.1 hc.2
    have := ih (histAdd h c.1 c.2) (w0 + c.2)
      (fun d hd => hl d (List.mem_cons_of_mem c hd)) hz2
    refine ⟨this.1, ?_⟩
    rw [List.foldl_cons, this.2]
    simp [add_assoc]

/-- Over an all-zero histogram with a positive low threshold the CDF
walk skips every bin (cdf stays 0 < lowth), so contrib and wcontrib are
both 0 when the walk ends. -/
theorem cdfWalk_of_zero (h : HistBins) (hz : ∀ i, h i = 0) (lowth highth : ℚ)
    (hl : 0 < lowth) : cdfWalk h lowth highth = (0, 0, 0) := by
  unfold cdfWalk
  suffices hgen : ∀ l : List Nat,
      l.foldl
        (fun (st : ℚ × ℚ × ℚ × Bool) i =>
          if st.2.2.2 then st
          else
            let idx : Fin 256 := Fin.ofNat' 256 i
            let cdf := st.1 + (h idx : ℚ)
            if cdf < lowth then (cdf, st.2.1, st.2.2.1, false)
            else
              let contrib := st.2.1 + (i : ℚ) * (h idx : ℚ)
              let wcontrib := st.2.2.1 + (h idx : ℚ)
              (cdf, contrib, wcontrib, decide (highth < cdf)))
        (0, 0, 0, false) = ((0 : ℚ), (0 : ℚ), (0 : ℚ), false) by
    rw [hgen]
  intro l
  induction l with
  | nil => rfl
  | cons i rest ih =>
    rw [List.foldl_cons]
    have hstep :
        (if (((0 : ℚ), (0 : ℚ), (0 : ℚ), false) : ℚ × ℚ × ℚ × Bool).2.2.2 then
            (((0 : ℚ), (0 : ℚ), (0 : ℚ), false) : ℚ × ℚ × ℚ × Bool)
          else
            let idx : Fin 256 := Fin.ofNat' 256 i
            let cdf := (((0 : ℚ), (0 : ℚ), (0 : ℚ), false) : ℚ × ℚ × ℚ × Bool).1 + (h idx : ℚ)
            if cdf < lowth then (cdf, 0, 0, false)
            else
              let contrib := (0 : ℚ) + (i : ℚ) * (h idx : ℚ)
              let wcontrib := (0 : ℚ) + (h idx : ℚ)
              (cdf, contrib, wcontrib, decide (highth < cdf))) =
          (((0 : ℚ), (0 : ℚ), (0 : ℚ), false) : ℚ × ℚ × ℚ × Bool) := by
      simp only [Bool.false_eq_true, if_false, hz, Int.cast_zero, add_zero]
      rw [if_pos hl]
    rw [hstep, ih]

/-- C1: with two accepted contributions of weight 3/5 at colour value
100 the offset sweep yields wsum = 6/5 >= 1, yet because the histogram
is declared as an int array every sub-unit increment truncates to 0,
the CDF never reaches lowth = 0.4*wsum, and both wcontrib and contrib
are still 0 at the division contrib / wcontrib — the claimed guarantee
wcontrib > 0 fails and the float division is 0/0. -/
theorem C1_em_divisor_zero :
    1 ≤ (emChannel c1contribs).1 ∧ (emChannel c1contribs).2.2 = 0 ∧
      (emChannel c1contribs).2.1 = 0 := by
  have hw : ∀ c ∈ c1contribs, 0 ≤ c.2 ∧ c.2 < 1 := by
    intro c hc
    simp only [c1contribs, List.mem_cons, List.not_mem_nil, or_false] at hc
    rcases hc with rfl | rfl <;> constructor <;> norm_num
  have hacc := emAccum_zero c1contribs hw
  have hsum : (emAccum c1contribs).2 = 6 / 5 := by
    rw [hacc.2]
    simp only [c1contribs, List.map_cons, List.map_nil, List.sum_cons, List.sum_nil]
    norm_num
  have hwalk := cdfWalk_of_zero (emAccum c1contribs).1 hacc.1
    ((2 : ℚ) / 5 * (emAccum c1contribs).2) ((3 : ℚ) / 5 * (emAccum c1contribs).2)
    (by rw [hsum]; norm_num)
  have heq : emChannel c1contribs =
      ((emAccum c1contribs).2,
        (cdfWalk (emAccum c1contribs).1 ((2 : ℚ) / 5 * (emAccum c1contribs).2)
          ((3 : ℚ) / 5 * (emAccum c1contribs).2)).2.1,
        (cdfWalk (emAccum c1contribs).1 ((2 : ℚ) / 5 * (emAccum c1contribs).2)
          ((3 : ℚ) / 5 * (emAccum c1contribs).2)).2.2) := rfl
  rw [heq, hwalk, hsum]
  norm_num

set_option maxRecDepth 8000 in
/-- C9: the engine's only randomness source is the entropy stream of the
process-global std::mt19937 seeded from std::random_device; no seed
parameter exists.  Two runs of randomize on identical inputs that
receive different entropy produce different fields, so the output is not
a function of the program inputs alone. -/
theorem C9_entropy_dependence :
    ((nnfRandomize cfg4 (field0, rng0)).1 0 0).x = 0 ∧
      ((nnfRandomize cfg4 (field0, rng1)).1 0 0).x = 1 := by decide

/-- The per-pixel SSD is at most channelCount * 255^2, hence at most
ssdmax when the image has at most 10 channels (samples are u8). -/
theorem distanceSq_le (cfg : NNConfig) (x y xo yo : Int) (hC : cfg.C ≤ 10) :
    distanceSq cfg x y xo yo ≤ ssdmax := by
  have hterm : ∀ c ∈ Finset.range cfg.C,
      (((cfg.inPix x y c : Nat) : Int) - ((cfg.outPix xo yo c : Nat) : Int)).natAbs ^ 2
        ≤ 65025 := by
    intro c _
    have h1 : (cfg.inPix x y c : Nat) < 256 := (cfg.inPix x y c).isLt
    have h2 : (cfg.outPix xo yo c : Nat) < 256 := (cfg.outPix xo yo c).isLt
    have habs : (((cfg.inPix x y c : Nat) : Int) - ((cfg.outPix xo yo c : Nat) : Int)).natAbs
        ≤ 255 := by omega
    calc (((cfg.inPix x y c : Nat) : Int) - ((cfg.outPix xo yo c : Nat) : Int)).natAbs ^ 2
        ≤ 255 ^ 2 := Nat.pow_le_pow_left habs 2
      _ = 65025 := by norm_num
  calc distanceSq cfg x y xo yo
      ≤ Finset.sum (Finset.range cfg.C) (fun _ => 65025) := Finset.sum_le_sum hterm
    _ = cfg.C * 65025 := by rw [Finset.sum_const, Finset.card_range, smul_eq_mul]
    _ ≤ 10 * 65025 := Nat.mul_le_mul_right 65025 hC
    _ = ssdmax := by norm_num [ssdmax]

/-- Every offset of the patch distance contributes at most ssdmax when
the image has at most 10 channels. -/
theorem offStep_le (cfg : NNConfig) (x y xp yp : Int) (p : Int × Int)
    (hC : cfg.C ≤ 10) : offStep cfg x y xp yp p ≤ ssdmax := by
  simp only [offStep]
  split_ifs <;> first
    | exact le_rfl
    | exact distanceSq_le cfg (x + p.1) (y + p.2) (xp + p.1) (yp + p.2) hC

/-- One offset of the source's distance loop equals the single
cap-or-SSD conditional of the spec's description. -/
theorem offStep_eq_spec (cfg : NNConfig) (x y xp yp : Int) (p : Int × Int) :
    offStep cfg x y xp yp p =
      (if (x + p.1 < 0 ∨ (cfg.inW : Int) ≤ x + p.1) ∨
          (y + p.2 < 0 ∨ (cfg.inH : Int) ≤ y + p.2) ∨
          cfg.inMask (x + p.1) (y + p.2) = true ∨
          (xp + p.1 < 0 ∨ (cfg.outW : Int) ≤ xp + p.1) ∨
          (yp + p.2 < 0 ∨ (cfg.outH : Int) ≤ yp + p.2) ∨
          cfg.outMask (xp + p.1) (yp + p.2) = true
        then ssdmax
        else distanceSq cfg (x + p.1) (y + p.2) (xp + p.1) (yp + p.2)) := by
  simp only [offStep]
  by_cases h1 : x + p.1 < 0 ∨ (cfg.inW : Int) ≤ x + p.1
  · rw [if_pos h1, if_pos (Or.inl h1)]
  rw [if_neg h1]
  by_cases h2 : y + p.2 < 0 ∨ (cfg.inH : Int) ≤ y + p.2
  · rw [if_pos h2, if_pos (Or.inr (Or.inl h2))]
  rw [if_neg h2]
  by_cases h3 : cfg.inMask (x + p.1) (y + p.2) = true
  · rw [if_pos h3, if_pos (Or.inr (Or.inr (Or.inl h3)))]
  rw [if_neg h3]
  by_cases h4 : xp + p.1 < 0 ∨ (cfg.outW : Int) ≤ xp + p.1
  · rw [if_pos h4, if_pos (Or.inr (Or.inr (Or.inr (Or.inl h4))))]
  rw [if_neg h4]
  by_cases h5 : yp + p.2 < 0 ∨ (cfg.outH : Int) ≤ yp + p.2
  · rw [if_pos h5, if_pos (Or.inr (Or.inr (Or.inr (Or.inr (Or.inl h5)))))]
  rw [if_neg h5]
  by_cases h6 : cfg.outMask (xp + p.1) (yp + p.2) = true
  · rw [if_pos h6, if_pos (Or.inr (Or.inr (Or.inr (Or.inr (Or.inr h6)))))]
  rw [if_neg h6, if_neg (by tauto)]

/-- The accumulating fold of the distance loop computes the sum of the
per-offset contributions and, in its second component, the number of
offsets times ssdmax. -/
theorem foldAcc_eq (g : Int × Int → Nat) (s : Nat) :
    ∀ (l : List (Int × Int)) (a b : Nat),
      l.foldl (fun (acc : Nat × Nat) p => (acc.1 + g p, acc.2 + s)) (a, b) =
        (a + (l.map g).sum, b + l.length * s) := by
  intro l
  induction l with
  | nil => intro a b; simp
  | cons p rest ih =>
    intro a b
    rw [List.foldl_cons, ih (a + g p) (b + s)]
    simp only [List.map_cons, List.sum_cons, List.length_cons]
    refine Prod.ext ?_ ?_ <;> simp <;> ring

/-- The offset window has (2R+1)^2 elements. -/
theorem offPairs_length (r : Nat) : (offPairs r).length = (2 * r + 1) ^ 2 := by
  simp [offPairs, offRange, List.length_flatMap, Function.comp_def, sq]

/-- A sum of list elements each bounded by s is at most length * s. -/
theorem sum_map_le_length_mul {α : Type} (g : α → Nat) (s : Nat) :
    ∀ l : List α, (∀ a ∈ l, g a ≤ s) → (l.map g).sum ≤ l.length * s := by
  intro l
  induction l with
  | nil => intro _; simp
  | cons p rest ih =>
    intro h
    have hp := h p (List.mem_cons_self p rest)
    have hr := ih fun a ha => h a (List.mem_cons_of_mem p ha)
    simp only [List.map_cons, List.sum_cons, List.length_cons]
    calc g p + (rest.map g).sum ≤ s + rest.length * s := Nat.add_le_add hp hr
      _ = (rest.length + 1) * s := by ring

/-- The patch distance never exceeds MAX_DIST when the image has at
most 10 channels: every offset contribution is at most ssdmax, so the
accumulated distance is at most wsum. -/
theorem nnfDistance_le (cfg : NNConfig) (x y xp yp : Int) (hC : cfg.C ≤ 10) :
    nnfDistance cfg x y xp yp ≤ maxDist := by
  have hfold := foldAcc_eq (offStep cfg x y xp yp) ssdmax (offPairs cfg.R) 0 0
  show maxDist *
      ((offPairs cfg.R).foldl
        (fun (a : Nat × Nat) p => (a.1 + offStep cfg x y xp yp p, a.2 + ssdmax))
        (0, 0)).1 /
      ((offPairs cfg.R).foldl
        (fun (a : Nat × Nat) p => (a.1 + offStep cfg x y xp yp p, a.2 + ssdmax))
        (0, 0)).2 ≤ maxDist
  rw [hfold]
  simp only [Nat.zero_add]
  have hle : ((offPairs cfg.R).map (offStep cfg x y xp yp)).sum ≤
      (offPairs cfg.R).length * ssdmax :=
    sum_map_le_length_mul (offStep cfg x y xp yp) ssdmax (offPairs cfg.R)
      (fun p _ => offStep_le cfg x y xp yp p hC)
  have hpos : 0 < (offPairs cfg.R).length * ssdmax := by
    rw [offPairs_length]
    have h2 : 0 < (2 * cfg.R + 1) ^ 2 := Nat.pos_pow_of_pos 2 (by omega)
    have hs : 0 < ssdmax := by norm_num [ssdmax]
    exact Nat.mul_pos h2 hs
  calc maxDist * ((offPairs cfg.R).map (offStep cfg x y xp yp)).sum /
        ((offPairs cfg.R).length * ssdmax)
      ≤ maxDist * ((offPairs cfg.R).length * ssdmax) /
        ((offPairs cfg.R).length * ssdmax) :=
        Nat.div_le_div_right (Nat.mul_le_mul_left maxDist hle)
    _ = maxDist := Nat.mul_div_cancel maxDist hpos

/-- C8: the patch distance computed by NearestNeighborField::distance
equals (D_MAX * sum) / wsum with wsum = (2R+1)^2 * ssdmax, where each
offset contributes the cap ssdmax if either sample is out of bounds or
masked and the per-pixel SSD otherwise; and whenever the image has at
most 10 channels (so that an SSD never exceeds ssdmax = 10*255*255) the
result lies in [0, D_MAX]. -/
theorem C8_distance (cfg : NNConfig) (x y xp yp : Int) (hC : cfg.C ≤ 10) :
    nnfDistance cfg x y xp yp = patchDistSpec cfg x y xp yp ∧
      nnfDistance cfg x y xp yp ≤ maxDist := by
  have hfold := foldAcc_eq (offStep cfg x y xp yp) ssdmax (offPairs cfg.R) 0 0
  have hsum : ((offPairs cfg.R).map (offStep cfg x y xp yp)).sum =
      ((offPairs cfg.R).map fun p =>
        if (x + p.1 < 0 ∨ (cfg.inW : Int) ≤ x + p.1) ∨
           (y + p.2 < 0 ∨ (cfg.inH : Int) ≤ y + p.2) ∨
           cfg.inMask (x + p.1) (y + p.2) = true ∨
           (xp + p.1 < 0 ∨ (cfg.outW : Int) ≤ xp + p.1) ∨
           (yp + p.2 < 0 ∨ (cfg.outH : Int) ≤ yp + p.2) ∨
           cfg.outMask (xp + p.1) (yp + p.2) = true
        then ssdmax
        else distanceSq cfg (x + p.1) (y + p.2) (xp + p.1) (yp + p.2)).sum := by
    refine congrArg List.sum (List.map_congr_left ?_)
    intro p _
    exact offStep_eq_spec cfg x y xp yp p
  refine ⟨?_, nnfDistance_le cfg x y xp yp hC⟩
  show maxDist *
      ((offPairs cfg.R).foldl
        (fun (a : Nat × Nat) p => (a.1 + offStep cfg x y xp yp p, a.2 + ssdmax))
        (0, 0)).1 /
      ((offPairs cfg.R).foldl
        (fun (a : Nat × Nat) p => (a.1 + offStep cfg x y xp yp p, a.2 + ssdmax))
        (0, 0)).2 = patchDistSpec cfg x y xp yp
  rw [hfold]
  simp only [Nat.zero_add]
  rw [hsum, offPairs_length]
  rfl

set_option maxRecDepth 20000 in
/-- C8 witness: the distance formula and the bound evaluated on the
one-channel 1x1 configuration cfg1 at the centre pair (0,0), (0,0). -/
theorem C8_witness :
    nnfDistance cfg1 0 0 0 0 = patchDistSpec cfg1 0 0 0 0 ∧
      nnfDistance cfg1 0 0 0 0 ≤ maxDist :=
  C8_distance cfg1 0 0 0 0 (by decide)

set_option maxRecDepth 20000 in
/-- C8 counterexample: on an 11-channel image pair whose single pixels
differ by 255 on every channel, the per-pixel SSD 11*255^2 exceeds the
cap ssdmax = 10*255^2 and the returned value is 66263 > D_MAX, so the
claim that the result always lies in [0, D_MAX] fails; the formula part
of the claim still holds, and the theorem recovers the range under a
channel-count bound of 10. -/
theorem C8_counterexample : 65535 < nnfDistance cfg11 0 0 0 0 := by decide

/-- Reading back the cell updF just wrote. -/
theorem updF_same (f : Field) (x y : Int) (e : NNEntry) : updF f x y e x y = e := by
  simp [updF]

/-- Reading any other cell after updF. -/
theorem updF_other (f : Field) (x y a b : Int) (e : NNEntry)
    (h : ¬(a = x ∧ b = y)) : updF f x y e a b = f a b := by
  simp only [updF]
  rw [if_neg h]

/-- Cells of a field after a horizontal propagation step either hold a
distance of at most MAX_DIST or are unchanged (10-channel bound). -/
theorem propHoriz_d (cfg : NNConfig) (hC : cfg.C ≤ 10) (f : Field) (x y dir a b : Int) :
    ((propHoriz cfg f x y dir) a b).d ≤ maxDist ∨ (propHoriz cfg f x y dir) a b = f a b := by
  simp only [propHoriz]
  split_ifs with h1 h2
  · by_cases hab : a = x ∧ b = y
    · left
      rcases hab with ⟨rfl, rfl⟩
      rw [updF_same]
      exact nnfDistance_le cfg a b _ _ hC
    · right
      exact updF_other _ _ _ _ _ _ hab
  · right; rfl
  · right; rfl

/-- The same for a vertical propagation step. -/
theorem propVert_d (cfg : NNConfig) (hC : cfg.C ≤ 10) (f : Field) (x y dir a b : Int) :
    ((propVert cfg f x y dir) a b).d ≤ maxDist ∨ (propVert cfg f x y dir) a b = f a b := by
  simp only [propVert]
  split_ifs with h1 h2
  · by_cases hab : a = x ∧ b = y
    · left
      rcases hab with ⟨rfl, rfl⟩
      rw [updF_same]
      exact nnfDistance_le cfg a b _ _ hC
    · right
      exact updF_other _ _ _ _ _ _ hab
  · right; rfl
  · right; rfl

/-- The same for one random-search iteration. -/
theorem randStep_d (cfg : NNConfig) (hC : cfg.C ≤ 10) (x y xpi ypi : Int) (w : Nat)
    (st : Field × RngT) (a b : Int) :
    ((randStep cfg x y xpi ypi w st).1 a b).d ≤ maxDist ∨
      (randStep cfg x y xpi ypi w st).1 a b = st.1 a b := by
  simp only [randStep]
  split_ifs with h1
  · by_cases hab : a = x ∧ b = y
    · left
      rcases hab with ⟨rfl, rfl⟩
      rw [updF_same]
      exact nnfDistance_le cfg a b _ _ hC
    · right
      exact updF_other _ _ _ _ _ _ hab
  · right; rfl

/-- The same for the whole random search. -/
theorem randSearch_d (cfg : NNConfig) (hC : cfg.C ≤ 10) (x y xpi ypi : Int) :
    ∀ (fuel wi : Nat) (st : Field × RngT) (a b : Int),
      ((randSearch cfg x y xpi ypi fuel wi st).1 a b).d ≤ maxDist ∨
        (randSearch cfg x y xpi ypi fuel wi st).1 a b = st.1 a b := by
  intro fuel
  induction fuel with
  | zero =>
    intro wi st a b
    right; rfl
  | succ n ih =>
    intro wi st a b
    match wi with
    | 0 => right; rfl
    | wi2 + 1 =>
      show ((randSearch cfg x y xpi ypi n ((wi2 + 1) / 2)
          (randStep cfg x y xpi ypi (wi2 + 1) st)).1 a b).d ≤ maxDist ∨
        (randSearch cfg x y xpi ypi n ((wi2 + 1) / 2)
          (randStep cfg x y xpi ypi (wi2 + 1) st)).1 a b = st.1 a b
      rcases ih ((wi2 + 1) / 2) (randStep cfg x y xpi ypi (wi2 + 1) st) a b with h | h
      · left; exact h
      · rw [h]
        exact randStep_d cfg hC x y xpi ypi (wi2 + 1) st a b

/-- The same for a full minimizeLink call. -/
theorem minimizeLink_d (cfg : NNConfig) (hC : cfg.C ≤ 10) (st : Field × RngT)
    (x y dir a b : Int) :
    ((minimizeLink cfg st x y dir).1 a b).d ≤ maxDist ∨
      (minimizeLink cfg st x y dir).1 a b = st.1 a b := by
  simp only [minimizeLink]
  generalize hf2 : propVert cfg (propHoriz cfg st.1 x y dir) x y dir = f2
  rcases randSearch_d cfg hC x y (f2 x y).x (f2 x y).y cfg.outW cfg.outW (f2, st.2) a b
    with h | h
  · left; exact h
  · rw [h, ← hf2]
    show ((propVert cfg (propHoriz cfg st.1 x y dir) x y dir) a b).d ≤ maxDist ∨
      propVert cfg (propHoriz cfg st.1 x y dir) x y dir a b = st.1 a b
    rcases propVert_d cfg hC (propHoriz cfg st.1 x y dir) x y dir a b with h2 | h2
    · left; exact h2
    · rw [h2]
      exact propHoriz_d cfg hC st.1 x y dir a b

/-- Folding field steps that each bound-or-preserve every cell again
bound-or-preserves every cell. -/
theorem foldl_field_d {α : Type} (step : Field × RngT → α → Field × RngT)
    (hstep : ∀ st c a b, ((step st c).1 a b).d ≤ maxDist ∨ (step st c).1 a b = st.1 a b) :
    ∀ (l : List α) (st : Field × RngT) (a b : Int),
      ((l.foldl step st).1 a b).d ≤ maxDist ∨ (l.foldl step st).1 a b = st.1 a b := by
  intro l
  induction l with
  | nil =>
    intro st a b
    right; rfl
  | cons c rest ih =>
    intro st a b
    rw [List.foldl_cons]
    rcases ih (step st c) a b with h | h
    · left; exact h
    · rw [h]
      exact hstep st c a b

/-- The same for one minimize pass. -/
theorem minimizePass_d (cfg : NNConfig) (hC : cfg.C ≤ 10) (st : Field × RngT) (a b : Int) :
    ((minimizePass cfg st).1 a b).d ≤ maxDist ∨ (minimizePass cfg st).1 a b = st.1 a b := by
  have hstep1 : ∀ (st : Field × RngT) (c : Nat × Nat) (a b : Int),
      (((if 0 < (st.1 (c.1 : Int) (c.2 : Int)).d then
          minimizeLink cfg st (c.1 : Int) (c.2 : Int) 1 else st)).1 a b).d ≤ maxDist ∨
        ((if 0 < (st.1 (c.1 : Int) (c.2 : Int)).d then
          minimizeLink cfg st (c.1 : Int) (c.2 : Int) 1 else st)).1 a b = st.1 a b := by
    intro st c a b
    split_ifs with hcnd
    · exact minimizeLink_d cfg hC st (c.1 : Int) (c.2 : Int) 1 a b
    · right; rfl
  have hstep2 : ∀ (st : Field × RngT) (c : Nat × Nat) (a b : Int),
      (((if (st.1 (c.1 : Int) (c.2 : Int)).d ≠ 0 then
          minimizeLink cfg st (c.1 : Int) (c.2 : Int) (-1) else st)).1 a b).d ≤ maxDist ∨
        ((if (st.1 (c.1 : Int) (c.2 : Int)).d ≠ 0 then
          minimizeLink cfg st (c.1 : Int) (c.2 : Int) (-1) else st)).1 a b = st.1 a b := by
    intro st c a b
    split_ifs with hcnd
    · exact minimizeLink_d cfg hC st (c.1 : Int) (c.2 : Int) (-1) a b
    · right; rfl
  simp only [minimizePass]
  have h2 := foldl_field_d _ hstep2 (reverseCells cfg.inW cfg.inH)
    ((forwardCells cfg.inW cfg.inH).foldl
      (fun (st : Field × RngT) c =>
        if 0 < (st.1 (c.1 : Int) (c.2 : Int)).d then
          minimizeLink cfg st (c.1 : Int) (c.2 : Int) 1
        else st) st) a b
  rcases h2 with h | h
  · left; exact h
  · rw [h]
    exact foldl_field_d _ hstep1 (forwardCells cfg.inW cfg.inH) st a b

/-- The same over any number of minimize passes. -/
theorem nnfMinimize_d (cfg : NNConfig) (hC : cfg.C ≤ 10) (st : Field × RngT)
    (pass : Nat) (a b : Int) :
    ((nnfMinimize cfg st pass).1 a b).d ≤ maxDist ∨
      (nnfMinimize cfg st pass).1 a b = st.1 a b := by
  exact foldl_field_d (fun st _ => minimizePass cfg st)
    (fun st c a b => minimizePass_d cfg hC st a b) (List.range pass) st a b

/-- Cells of the scan order are exactly the in-range cells. -/
theorem scanCells_mem (w h : Nat) (p : Nat × Nat) :
    p ∈ scanCells w h ↔ p.1 < w ∧ p.2 < h := by
  rcases p with ⟨i, j⟩
  simp only [scanCells, List.mem_flatMap, List.mem_map, List.mem_range, Prod.mk.injEq]
  constructor
  · rintro ⟨b, hb, a, ha, rfl, rfl⟩
    exact ⟨ha, hb⟩
  · rintro ⟨hi, hj⟩
    exact ⟨j, hj, i, hi, rfl, rfl⟩

/-- Entries built from in-range naturals are in range. -/
theorem entryInRange_mk (w h : Nat) (vx vy d : Nat) (hx : vx < w) (hy : vy < h)
    (hd : d ≤ maxDist) : entryInRange w h ⟨(vx : Int), (vy : Int), d⟩ := by
  unfold entryInRange
  refine ⟨?_, ?_, ?_, ?_, ?_⟩
  · show (0 : Int) ≤ (vx : Int)
    positivity
  · show (vx : Int) < (w : Int)
    exact_mod_cast hx
  · show (0 : Int) ≤ (vy : Int)
    positivity
  · show (vy : Int) < (h : Int)
    exact_mod_cast hy
  · show d ≤ maxDist
    exact hd

/-- Any cell after an assignCell write either holds an in-range entry
or is unchanged. -/
theorem assignCell_pointwise (cfg : NNConfig) (hW : 1 ≤ cfg.inW) (hH : 1 ≤ cfg.inH)
    (st : Field × RngT) (c : Nat × Nat) (a b : Int) :
    entryInRange cfg.inW cfg.inH ((assignCell cfg st c).1 a b) ∨
      (assignCell cfg st c).1 a b = st.1 a b := by
  simp only [assignCell]
  by_cases hab : a = (c.1 : Int) ∧ b = (c.2 : Int)
  · left
    rcases hab with ⟨rfl, rfl⟩
    rw [updF_same]
    exact entryInRange_mk cfg.inW cfg.inH _ _ _ (Nat.mod_lt _ (by omega))
      (Nat.mod_lt _ (by omega)) le_rfl
  · right
    exact updF_other _ _ _ _ _ _ hab

/-- The cell assignCell writes holds an in-range entry. -/
theorem assignCell_written (cfg : NNConfig) (hW : 1 ≤ cfg.inW) (hH : 1 ≤ cfg.inH)
    (st : Field × RngT) (c : Nat × Nat) :
    entryInRange cfg.inW cfg.inH ((assignCell cfg st c).1 (c.1 : Int) (c.2 : Int)) := by
  simp only [assignCell]
  rw [updF_same]
  exact entryInRange_mk cfg.inW cfg.inH _ _ _ (Nat.mod_lt _ (by omega))
    (Nat.mod_lt _ (by omega)) le_rfl

/-- After the assignment loop every visited cell holds an in-range
entry, and cells that already held one keep holding one. -/
theorem assignFold_P (cfg : NNConfig) (hW : 1 ≤ cfg.inW) (hH : 1 ≤ cfg.inH) :
    ∀ (l : List (Nat × Nat)) (st : Field × RngT),
      (∀ p ∈ l, entryInRange cfg.inW cfg.inH
        ((l.foldl (assignCell cfg) st).1 (p.1 : Int) (p.2 : Int))) ∧
      (∀ a b : Int, entryInRange cfg.inW cfg.inH (st.1 a b) →
        entryInRange cfg.inW cfg.inH ((l.foldl (assignCell cfg) st).1 a b)) := by
  intro l
  induction l with
  | nil =>
    intro st
    exact ⟨fun p hp => absurd hp (List.not_mem_nil p), fun a b h => h⟩
  | cons c rest ih =>
    intro st
    rw [List.foldl_cons]
    constructor
    · intro p hp
      rcases List.mem_cons.mp hp with hpc | hp2
      · rw [hpc]
        exact (ih (assignCell cfg st c)).2 (c.1 : Int) (c.2 : Int)
          (assignCell_written cfg hW hH st c)
      · exact (ih (assignCell cfg st c)).1 p hp2
    · intro a b hP
      refine (ih (assignCell cfg st c)).2 a b ?_
      rcases assignCell_pointwise cfg hW hH st c a b with h | h
      · exact h
      · rw [h]; exact hP

/-- The retry loop of initialize keeps the entry in range: a redraw
stores coordinates below the input dimensions and a recomputed distance
at most MAX_DIST. -/
theorem initRetry_P (cfg : NNConfig) (hW : 1 ≤ cfg.inW) (hH : 1 ≤ cfg.inH)
    (hC : cfg.C ≤ 10) (x y : Int) (st : NNEntry × RngT)
    (hP : entryInRange cfg.inW cfg.inH st.1) :
    entryInRange cfg.inW cfg.inH (initRetry cfg x y st).1 := by
  simp only [initRetry]
  induction (List.range 20) generalizing st with
  | nil => exact hP
  | cons c rest ih =>
    rw [List.foldl_cons]
    apply ih
    split_ifs with hd
    · exact entryInRange_mk cfg.inW cfg.inH _ _ _ (Nat.mod_lt _ (by omega))
        (Nat.mod_lt _ (by omega)) (nnfDistance_le cfg x y _ _ hC)
    · exact hP

/-- One initialize cell keeps the whole in-range invariant. -/
theorem initCell_Inv (cfg : NNConfig) (hW : 1 ≤ cfg.inW) (hH : 1 ≤ cfg.inH)
    (hC : cfg.C ≤ 10) (st : Field × RngT) (c : Nat × Nat)
    (hc1 : c.1 < cfg.inW) (hc2 : c.2 < cfg.inH)
    (hInv : ∀ i j : Nat, i < cfg.inW → j < cfg.inH →
      entryInRange cfg.inW cfg.inH (st.1 (i : Int) (j : Int))) :
    ∀ i j : Nat, i < cfg.inW → j < cfg.inH →
      entryInRange cfg.inW cfg.inH ((initCell cfg st c).1 (i : Int) (j : Int)) := by
  intro i j hi hj
  have hPc := hInv c.1 c.2 hc1 hc2
  simp only [initCell]
  by_cases hab : (i : Int) = (c.1 : Int) ∧ (j : Int) = (c.2 : Int)
  · rcases hab with ⟨h1, h2⟩
    rw [h1, h2, updF_same]
    refine initRetry_P cfg hW hH hC (c.1 : Int) (c.2 : Int) _ ?_
    exact ⟨hPc.1, hPc.2.1, hPc.2.2.1, hPc.2.2.2.1,
      nnfDistance_le cfg (c.1 : Int) (c.2 : Int) _ _ hC⟩
  · rw [updF_other _ _ _ _ _ _ hab]
    exact hInv i j hi hj

/-- The initialize loop keeps the in-range invariant. -/
theorem initFold_Inv (cfg : NNConfig) (hW : 1 ≤ cfg.inW) (hH : 1 ≤ cfg.inH)
    (hC : cfg.C ≤ 10) :
    ∀ (l : List (Nat × Nat)) (st : Field × RngT),
      (∀ p ∈ l, p.1 < cfg.inW ∧ p.2 < cfg.inH) →
      (∀ i j : Nat, i < cfg.inW → j < cfg.inH →
        entryInRange cfg.inW cfg.inH (st.1 (i : Int) (j : Int))) →
      ∀ i j : Nat, i < cfg.inW → j < cfg.inH →
        entryInRange cfg.inW cfg.inH ((l.foldl (initCell cfg) st).1 (i : Int) (j : Int)) := by
  intro l
  induction l with
  | nil =>
    intro st _ hInv
    exact hInv
  | cons c rest ih =>
    intro st hl hInv
    rw [List.foldl_cons]
    have hc := hl c (List.mem_cons_self c rest)
    exact ih (initCell cfg st c) (fun p hp => hl p (List.mem_cons_of_mem c hp))
      (initCell_Inv cfg hW hH hC st c hc.1 hc.2 hInv)

/-- C4 amended: when the target and source images have equal dimensions
(as the patch driver constructs its NNFs) with at least one pixel, at
most 10 channels and radius R, every entry satisfies 0 <= sx < source.W,
0 <= sy < source.H and 0 <= d <= D_MAX once randomize() completes, and
every minimize() pass keeps every distance in [0, D_MAX]; the source
coordinate bounds, however, are not preserved by minimize — its
propagation candidates are adopted without a range check (only the
random-search candidates are clamped), which is what the counterexample
exhibits. -/
theorem C4_bounds_amended (cfg : NNConfig) (st : Field × RngT) (pass : Nat)
    (hW : 1 ≤ cfg.inW) (hH : 1 ≤ cfg.inH)
    (heW : cfg.outW = cfg.inW) (heH : cfg.outH = cfg.inH) (hC : cfg.C ≤ 10) :
    (∀ i j : Nat, i < cfg.inW → j < cfg.inH →
      entryInRange cfg.outW cfg.outH ((nnfRandomize cfg st).1 (i : Int) (j : Int))) ∧
    (∀ i j : Nat, i < cfg.inW → j < cfg.inH →
      ((nnfMinimize cfg (nnfRandomize cfg st) pass).1 (i : Int) (j : Int)).d ≤ maxDist) := by
  have hInv : ∀ i j : Nat, i < cfg.inW → j < cfg.inH →
      entryInRange cfg.inW cfg.inH ((nnfRandomize cfg st).1 (i : Int) (j : Int)) := by
    have hassign := assignFold_P cfg hW hH (scanCells cfg.inW cfg.inH) st
    have hInv0 : ∀ i j : Nat, i < cfg.inW → j < cfg.inH →
        entryInRange cfg.inW cfg.inH ((randomizeAssign cfg st).1 (i : Int) (j : Int)) := by
      intro i j hi hj
      exact hassign.1 (i, j) ((scanCells_mem cfg.inW cfg.inH (i, j)).mpr ⟨hi, hj⟩)
    intro i j hi hj
    refine initFold_Inv cfg hW hH hC (scanCells cfg.inW cfg.inH) (randomizeAssign cfg st)
      (fun p hp => (scanCells_mem cfg.inW cfg.inH p).mp hp) hInv0 i j hi hj
  constructor
  · intro i j hi hj
    rw [heW, heH]
    exact hInv i j hi hj
  · intro i j hi hj
    rcases nnfMinimize_d cfg hC (nnfRandomize cfg st) pass (i : Int) (j : Int) with h | h
    · exact h
    · rw [h]
      exact (hInv i j hi hj).2.2.2.2

set_option maxRecDepth 20000 in
/-- C4 witness: the amended bounds instantiated on cfg4 with the
all-zero entropy stream, one pass, at the cell (0, 0). -/
theorem C4_witness :
    entryInRange cfg4.outW cfg4.outH ((nnfRandomize cfg4 (field0, rng0)).1 0 0) ∧
      ((nnfMinimize cfg4 (nnfRandomize cfg4 (field0, rng0)) 1).1 0 0).d ≤ maxDist :=
  ⟨(C4_bounds_amended cfg4 (field0, rng0) 1 (by decide) (by decide) rfl rfl
      (by decide)).1 0 0 (by decide) (by decide),
    (C4_bounds_amended cfg4 (field0, rng0) 1 (by decide) (by decide) rfl rfl
      (by decide)).2 0 0 (by decide) (by decide)⟩

set_option maxRecDepth 20000 in
/-- C4 counterexample: on the 2x2 equal-size configuration cfg4, after
randomize completes (all-zero entropy links every cell to (0,0)) one
minimize pass lets the reverse-scan horizontal propagation at (0,0)
adopt the candidate (field[1][0].x - 1, field[1][0].y) = (-1, 0), whose
distance 50971 strictly beats every in-range candidate; no range check
guards propagation adoption, so the entry's sx leaves [0, source.W). -/
theorem C4_counterexample : (c4field 0 0).x = -1 ∧ (c4field 0 0).x < 0 := by decide

set_option maxRecDepth 20000 in
/-- C7 counterexample: in the cfg7 state field7 the cell (0,2) has
field[0][2] = (0,0) and its vertical neighbour field[0][1] = (0,2).
The source's vertical propagation (both components from the current
cell) adopts (0, 0+1) and ends with sy = 1, while the claim's candidate
(x from current, y from the adjacent cell) would end with sy = 2: the
two runs differ, so the claim misdescribes minimize_link. -/
theorem C7_counterexample :
    ((minimizeLink cfg7 (field7, rng0) 0 2 1).1 0 2).y = 1 ∧
      ((minimizeLinkClaim cfg7 (field7, rng0) 0 2 1).1 0 2).y = 2 := by decide

/-- C7 amended: when the guard 0 < y - dir < H holds, the vertical
propagation of minimize_link tries the candidate (nnf[x,y].sx,
nnf[x,y].sy + dir) — both components from the CURRENT cell, the
adjacent cell appearing only in the guard — and adopts it iff its
distance is strictly smaller than the current one; consequently the
source's step agrees with the claim's description exactly when the
adjacent cell happens to hold the same sy as the current one. -/
theorem C7_vert_amended (cfg : NNConfig) (f : Field) (x y dir : Int)
    (h : 0 < y - dir ∧ y - dir < (cfg.inH : Int)) :
    (propVert cfg f x y dir =
      if nnfDistance cfg x y (f x y).x ((f x y).y + dir) < (f x y).d then
        updF f x y
          ⟨(f x y).x, (f x y).y + dir, nnfDistance cfg x y (f x y).x ((f x y).y + dir)⟩
      else f) ∧
      ((f x (y - dir)).y = (f x y).y →
        propVert cfg f x y dir = propVertClaim cfg f x y dir) := by
  constructor
  · simp only [propVert]
    rw [if_pos h]
  · intro hy
    simp only [propVert, propVertClaim, hy]

set_option maxRecDepth 20000 in
/-- C7 witness: the amended vertical-propagation description
instantiated at the cfg7 state, where the guard holds. -/
theorem C7_witness :
    (propVert cfg7 field7 0 2 1 =
      if nnfDistance cfg7 0 2 (field7 0 2).x ((field7 0 2).y + 1) < (field7 0 2).d then
        updF field7 0 2
          ⟨(field7 0 2).x, (field7 0 2).y + 1,
            nnfDistance cfg7 0 2 (field7 0 2).x ((field7 0 2).y + 1)⟩
      else field7) ∧
      ((field7 0 (2 - 1)).y = (field7 0 2).y →
        propVert cfg7 field7 0 2 1 = propVertClaim cfg7 field7 0 2 1) :=
  C7_vert_amended cfg7 field7 0 2 1 (by decide)

/-- C6 counterexample: on a 1x2 grid the forward scan visits only
(0,0) — the source loop is y < max_y with max_y = H - 1 — although the
claim says it visits every y up to H-1; the reverse scan does visit
(0,1). -/
theorem C6_counterexample :
    ¬ ((0, 1) ∈ forwardCells 1 2) ∧ (0, 1) ∈ reverseCells 1 2 := by decide

/-- C6 amended: within each minimize pass the forward scan visits
exactly the cells with x < W and y < H - 1 (the last row is skipped by
the y < max_y comparison), while the reverse scan visits every cell of
the grid; so only the rows below H-1 are visited by both scans. -/
theorem C6_scan_amended (w h x y : Nat) :
    ((x, y) ∈ forwardCells w h ↔ x < w ∧ y + 1 < h) ∧
      ((x, y) ∈ reverseCells w h ↔ x < w ∧ y < h) := by
  constructor
  · simp only [forwardCells, List.mem_flatMap, List.mem_map, List.mem_range,
      Prod.mk.injEq]
    constructor
    · rintro ⟨b, hb, a, ha, rfl, rfl⟩
      omega
    · rintro ⟨hx, hy⟩
      exact ⟨y, by omega, x, hx, rfl, rfl⟩
  · simp only [reverseCells, List.mem_flatMap, List.mem_map, List.mem_reverse,
      List.mem_range, Prod.mk.injEq]
    constructor
    · rintro ⟨b, hb, a, ha, rfl, rfl⟩
      omega
    · rintro ⟨hx, hy⟩
      exact ⟨y, hy, x, hx, rfl, rfl⟩

end KisCloneTest
